import Mathlib

set_option maxHeartbeats 1000000

/-! Shallow embedding of the Sv39 page-table mapping core of the repository
(`src/os/src/memory/mapping/mapping.rs`).  The collaborator types that the
mapping core consumes (page-table entries and their flag bits, the virtual
page number level decomposition, segments, the frame allocator and the
ownership trackers) are not part of the repository snapshot, so they are
modelled from the specification; every such definition is marked
`Modelled from the spec`.  Fallible operations return a `KResult`, whose
`err` constructor corresponds to a recoverable `Err` (allocator exhaustion,
propagated with `?`) and whose `halt` constructor corresponds to a fatal
`assert!`/`unimplemented!` panic that stops the core. -/

/-- Modelled from the spec: the VALID bit of the permission/validity flag
bitmask of a page-table entry. -/
def Flags.VALID : Nat := 1

/-- Modelled from the spec: the READABLE flag bit. -/
def Flags.READABLE : Nat := 2

/-- Modelled from the spec: the WRITABLE flag bit. -/
def Flags.WRITABLE : Nat := 4

/-- Modelled from the spec: the EXECUTABLE flag bit. -/
def Flags.EXECUTABLE : Nat := 8

/-- Modelled from the spec: the USER flag bit. -/
def Flags.USER : Nat := 16

/-- Modelled from the spec: `bitflags` containment test — `f` contains all
bits of `g`. -/
def Flags.contains (f g : Nat) : Bool := f &&& g == g

/-- Modelled from the spec: a page-table entry holds the physical page number
of the next table or final frame, plus flag bits. -/
structure PageTableEntry where
  ppn : Nat
  flags : Nat
deriving DecidableEq, Repr

/-- Modelled from the spec: `PageTableEntry::default()`, the empty sentinel
with a zero page-number field and all flag bits clear. -/
def PageTableEntry.empty : PageTableEntry := ⟨0, 0⟩

/-- Modelled from the spec: an entry is empty iff its VALID bit is clear and
its page number field is zero. -/
def PageTableEntry.is_empty (e : PageTableEntry) : Bool :=
  !(Flags.contains e.flags Flags.VALID) && e.ppn == 0

/-- Modelled from the spec: `PageTableEntry::new(ppn, flags)` writes a new
entry with the given physical page number and flags, with VALID implicitly
part of the written flag set (spec section 4.4). -/
def PageTableEntry.new (ppn flags : Nat) : PageTableEntry :=
  ⟨ppn, flags ||| Flags.VALID⟩

/-- Modelled from the spec: a virtual page number decomposes into three 9-bit
level indices (`levels()[0..3]`), top level first. -/
def levels (vpn : Nat) : List Nat :=
  [(vpn >>> 18) % 512, (vpn >>> 9) % 512, vpn % 512]

/-- Physical memory as seen through page-table reads: a write log keyed by
(page number of the table, 9-bit entry index).  A location never written
reads as the empty entry (page-table nodes are zero-initialised on
creation, which the `clear` operation models). -/
abbrev Mem : Type := List (Nat × Nat × PageTableEntry)

/-- Read the entry at index `i` of the page table living in physical page
`p`: the most recent write wins, absent a write the entry is empty. -/
def Mem.read (m : Mem) (p i : Nat) : PageTableEntry :=
  match m with
  | [] => PageTableEntry.empty
  | (q, j, e) :: rest => if q = p ∧ j = i then e else Mem.read rest p i

/-- Write the entry at index `i` of the page table in physical page `p`. -/
def Mem.write (m : Mem) (p i : Nat) (e : PageTableEntry) : Mem :=
  (p, i, e) :: m

/-- Zero-initialise the page table in physical page `p` (performed by
`PageTableTracker::new` on every freshly allocated page-table node). -/
def Mem.clear (m : Mem) (p : Nat) : Mem :=
  m.filter (fun x => x.1 != p)

/-- The whole machine state the mapping core manipulates: page-table memory,
the shared frame allocator's free list, and the `Mapping` struct itself
(`page_tables` — the tracked page-table nodes — and `root_ppn`). -/
structure Machine where
  mem : Mem
  alloc_pool : List Nat
  page_tables : List Nat
  root_ppn : Nat
deriving DecidableEq, Repr

/-- Modelled from the spec: `FRAME_ALLOCATOR.lock().alloc()` — hand out the
next free physical page number, or fail on exhaustion. -/
def Machine.alloc (s : Machine) : Option (Nat × Machine) :=
  match s.alloc_pool with
  | [] => none
  | p :: rest => some (p, { s with alloc_pool := rest })

/-- Modelled from the spec: dropping a `FrameTracker` returns its physical
page to the shared allocator. -/
def Machine.free (s : Machine) (p : Nat) : Machine :=
  { s with alloc_pool := p :: s.alloc_pool }

/-- Result of a mapping-core operation: `ok` is `Ok`, `err` is a recoverable
`Err` (allocator exhaustion; the machine state at the failure persists
because the `Mapping` is mutated through `&mut self`), `halt` is a fatal
`assert!`/`unimplemented!` panic. -/
inductive KResult (α : Type) where
  | ok : α → KResult α
  | err : Machine → KResult α
  | halt : KResult α
deriving DecidableEq, Repr

/-- One iteration of the `for vpn_slice in &vpn.levels()[1..]` loop of
`Mapping::find_entry`: if the entry at the current location is empty,
allocate a fresh page-table node, zero-initialise it, write a new entry
`PageTableEntry::new(new_ppn, Flags::VALID)` at the current location and
track the node; then descend into the next table at index `slice`. -/
def descend (s : Machine) (loc : Nat × Nat) (slice : Nat) : KResult ((Nat × Nat) × Machine) :=
  let pte := s.mem.read loc.1 loc.2
  if pte.is_empty then
    match s.alloc with
    | none => KResult.err s
    | some (new_ppn, s₁) =>
      KResult.ok ((new_ppn, slice),
        { s₁ with
          mem := (s₁.mem.clear new_ppn).write loc.1 loc.2 (PageTableEntry.new new_ppn Flags.VALID),
          page_tables := s₁.page_tables ++ [new_ppn] })
  else
    KResult.ok ((pte.ppn, slice), s)

/-- The walk of `Mapping::find_entry` over the remaining level slices. -/
def Mapping.walk_create (s : Machine) (loc : Nat × Nat) : List Nat → KResult ((Nat × Nat) × Machine)
  | [] => KResult.ok (loc, s)
  | slice :: rest =>
    match descend s loc slice with
    | KResult.ok (loc', s') => Mapping.walk_create s' loc' rest
    | KResult.err s' => KResult.err s'
    | KResult.halt => KResult.halt

/-- `Mapping::find_entry`: start from the root table indexed by the top
level slice and walk the remaining two levels, lazily creating page-table
nodes; returns the location of the third-level (leaf) entry. -/
def Mapping.find_entry (s : Machine) (vpn : Nat) : KResult ((Nat × Nat) × Machine) :=
  Mapping.walk_create s (s.root_ppn, (levels vpn).headD 0) (levels vpn).tail

/-- `Mapping::map_one`: locate the leaf entry,
`assert!(entry.is_empty(), "virtual address is already mapped")`, then write
`PageTableEntry::new(ppn, flags)`. -/
def Mapping.map_one (s : Machine) (vpn ppn flags : Nat) : KResult Machine :=
  match Mapping.find_entry s vpn with
  | KResult.err s₁ => KResult.err s₁
  | KResult.halt => KResult.halt
  | KResult.ok (loc, s₁) =>
    if (s₁.mem.read loc.1 loc.2).is_empty then
      KResult.ok { s₁ with mem := s₁.mem.write loc.1 loc.2 (PageTableEntry.new ppn flags) }
    else
      KResult.halt

/-- `Mapping::swap_out`: locate the leaf entry,
`assert!(entry.flags().contains(Flags::VALID), "page swapped out is not valid")`,
then overwrite it with `PageTableEntry::default()`. -/
def Mapping.swap_out (s : Machine) (vpn : Nat) : KResult Machine :=
  match Mapping.find_entry s vpn with
  | KResult.err s₁ => KResult.err s₁
  | KResult.halt => KResult.halt
  | KResult.ok (loc, s₁) =>
    if Flags.contains (s₁.mem.read loc.1 loc.2).flags Flags.VALID then
      KResult.ok { s₁ with mem := s₁.mem.write loc.1 loc.2 PageTableEntry.empty }
    else
      KResult.halt

/-- `Mapping::swap_in`: locate the leaf entry,
`assert!(!entry.flags().contains(Flags::VALID), "page is already valid")`,
then write `PageTableEntry::new(ppn, flags)`. -/
def Mapping.swap_in (s : Machine) (vpn ppn flags : Nat) : KResult Machine :=
  match Mapping.find_entry s vpn with
  | KResult.err s₁ => KResult.err s₁
  | KResult.halt => KResult.halt
  | KResult.ok (loc, s₁) =>
    if Flags.contains (s₁.mem.read loc.1 loc.2).flags Flags.VALID then
      KResult.halt
    else
      KResult.ok { s₁ with mem := s₁.mem.write loc.1 loc.2 (PageTableEntry.new ppn flags) }

/-- Modelled from the spec: the mapping policy of a segment. -/
inductive MapType where
  | Linear
  | Framed
deriving DecidableEq, Repr

/-- Modelled from the spec: a segment covering the virtual pages
[start_vpn, start_vpn + page_count) with a mapping policy and flags. -/
structure Segment where
  start_vpn : Nat
  page_count : Nat
  map_type : MapType
  flags : Nat
deriving DecidableEq, Repr

/-- The virtual page numbers [v, v + n) in range-iteration order. -/
def vpnRange (v n : Nat) : List Nat :=
  match n with
  | 0 => []
  | Nat.succ m => v :: vpnRange (v + 1) m

/-- The iteration `segment.iter()` over the segment's page range. -/
def Segment.pages (seg : Segment) : List Nat :=
  vpnRange seg.start_vpn seg.page_count

/-- Modelled from the spec: dropping a collection of
`(VirtualPageNumber, FrameTracker)` pairs returns every tracked frame to the
shared allocator. -/
def free_frames (s : Machine) (pairs : List (Nat × Nat)) : Machine :=
  pairs.foldl (fun t pr => t.free pr.2) s

/-- The `MapType::Linear` arm of the loop in `Mapping::map`: for every page,
`self.map_one(vpn, PhysicalPageNumber::from(vpn), segment.flags)?`. -/
def Mapping.map_linear_loop (s : Machine) (flags : Nat) : List Nat → KResult Machine
  | [] => KResult.ok s
  | vpn :: rest =>
    match Mapping.map_one s vpn vpn flags with
    | KResult.ok s' => Mapping.map_linear_loop s' flags rest
    | KResult.err s' => KResult.err s'
    | KResult.halt => KResult.halt

/-- The `MapType::Framed` arm of the loop in `Mapping::map`: while the frame
budget lasts, allocate a frame, map the page to it and record the pair;
once the budget is exhausted the remaining pages are skipped.  An `Err`
propagated by `?` drops the local frame and the accumulated pairs, whose
trackers return their frames to the allocator. -/
def Mapping.map_framed_loop (s : Machine) (flags limit : Nat) (acc : List (Nat × Nat)) :
    List Nat → KResult (Machine × List (Nat × Nat))
  | [] => KResult.ok (s, acc)
  | vpn :: rest =>
    if limit > 0 then
      match s.alloc with
      | none => KResult.err (free_frames s acc)
      | some (frame, s₁) =>
        match Mapping.map_one s₁ vpn frame flags with
        | KResult.ok s₂ => Mapping.map_framed_loop s₂ flags (limit - 1) (acc ++ [(vpn, frame)]) rest
        | KResult.err s₂ => KResult.err (free_frames s₂ (acc ++ [(vpn, frame)]))
        | KResult.halt => KResult.halt
    else
      Mapping.map_framed_loop s flags limit acc rest

/-- `Mapping::map`: add a whole segment to the mapping.  Both arms treat a
present `init_data` as `unimplemented!()` (a fatal halt); the Linear arm
identity-maps every page and returns no pairs, the Framed arm allocates up
to `frame_limit` frames and returns the allocated pairs. -/
def Mapping.map (s : Machine) (seg : Segment) (frame_limit : Nat)
    (init_data : Option (Nat × Nat)) : KResult (Machine × List (Nat × Nat)) :=
  match seg.map_type with
  | MapType.Linear =>
    if init_data.isSome then
      KResult.halt
    else
      match Mapping.map_linear_loop s seg.flags seg.pages with
      | KResult.ok s' => KResult.ok (s', [])
      | KResult.err s' => KResult.err s'
      | KResult.halt => KResult.halt
  | MapType.Framed =>
    if init_data.isSome then
      KResult.halt
    else
      Mapping.map_framed_loop s seg.flags frame_limit [] seg.pages

/-- `Mapping::new`: allocate the root page-table node (zero-initialised by
its tracker) and return a mapping whose table collection holds only it. -/
def Mapping.new (mem : Mem) (pool : List Nat) : Option Machine :=
  match pool with
  | [] => none
  | root :: rest => some ⟨mem.clear root, rest, [root], root⟩

/-- The hardware walker's read-only Sv39 translation of a virtual page
number: follow VALID links from the root and return the leaf entry, or
`none` if an intermediate entry is empty (the access faults). -/
def Mapping.lookup (s : Machine) (vpn : Nat) : Option PageTableEntry :=
  let e0 := s.mem.read s.root_ppn ((vpn >>> 18) % 512)
  if e0.is_empty then none
  else
    let e1 := s.mem.read e0.ppn ((vpn >>> 9) % 512)
    if e1.is_empty then none
    else some (s.mem.read e1.ppn (vpn % 512))

/-- Three pairwise distinct physical page numbers (root, first-level and
second-level page-table node of an established walk chain). -/
def distinct3 (root t1 t2 : Nat) : Prop :=
  root ≠ t1 ∧ root ≠ t2 ∧ t1 ≠ t2

/-- Read-characterisation of a machine whose page table holds the walk chain
root → t1 → t2 for the 512-page block of virtual pages `512 * A + i`
(`i < 512`), with `leaf` giving the contents of every entry of the leaf
table `t2`. -/
def chain_reads (s : Machine) (root t1 t2 A : Nat) (leaf : Nat → PageTableEntry) : Prop :=
  s.root_ppn = root ∧
  s.mem.read root ((A >>> 9) % 512) = PageTableEntry.new t1 Flags.VALID ∧
  s.mem.read t1 (A % 512) = PageTableEntry.new t2 Flags.VALID ∧
  ∀ i, s.mem.read t2 i = leaf i

/-! ### Basic lemmas about memory reads -/

theorem Mem.read_write (m : Mem) (p i q j : Nat) (e : PageTableEntry) :
    (m.write p i e).read q j = if p = q ∧ i = j then e else m.read q j := by
  simp [Mem.write, Mem.read]

theorem Mem.read_clear (m : Mem) (p q i : Nat) :
    (m.clear p).read q i = if q = p then PageTableEntry.empty else m.read q i := by
  induction m with
  | nil =>
    simp only [Mem.clear, List.filter_nil, Mem.read]
    split <;> rfl
  | cons hd tl ih =>
    obtain ⟨a, b, e⟩ := hd
    simp only [Mem.clear] at ih ⊢
    rw [List.filter_cons]
    by_cases hap : a = p
    · rw [if_neg (by simp [hap])]
      rw [ih]
      by_cases hq : q = p
      · simp [hq]
      · rw [if_neg hq, if_neg hq]
        simp only [Mem.read]
        rw [if_neg (by rintro ⟨h1, -⟩; exact hq (by rw [← h1]; exact hap))]
    · rw [if_pos (by simp [bne_iff_ne]; exact hap)]
      simp only [Mem.read]
      rw [ih]
      by_cases hq : q = p
      · rw [if_pos hq, if_pos hq]
        rw [if_neg (by rintro ⟨h1, -⟩; exact hap (by rw [h1]; exact hq))]
      · rw [if_neg hq, if_neg hq]

theorem Mem.read_nil (p i : Nat) : Mem.read [] p i = PageTableEntry.empty := rfl

/-! ### Flag-bit lemmas -/

theorem Flags.lor_valid_and_valid (f : Nat) : (f ||| Flags.VALID) &&& Flags.VALID = Flags.VALID := by
  apply Nat.eq_of_testBit_eq
  intro j
  simp only [Flags.VALID, Nat.testBit_land, Nat.testBit_lor]
  cases j <;> simp [Nat.testBit_succ]

theorem Flags.contains_lor_valid (f : Nat) :
    Flags.contains (f ||| Flags.VALID) Flags.VALID = true := by
  simp [Flags.contains, Flags.lor_valid_and_valid]

theorem PageTableEntry.new_is_empty (p f : Nat) : (PageTableEntry.new p f).is_empty = false := by
  simp [PageTableEntry.new, PageTableEntry.is_empty, Flags.contains_lor_valid]

theorem PageTableEntry.empty_is_empty : PageTableEntry.empty.is_empty = true := rfl

theorem Flags.empty_not_valid : Flags.contains PageTableEntry.empty.flags Flags.VALID = false := rfl

theorem Flags.lor_valid_of_contains (f : Nat) (h : Flags.contains f Flags.VALID = true) :
    f ||| Flags.VALID = f := by
  have hand : f &&& 1 = 1 := by
    simpa [Flags.contains, Flags.VALID] using h
  have h0 : f.testBit 0 = true := by
    have hc := congrArg (fun n => n.testBit 0) hand
    simp only [Nat.testBit_land] at hc
    have h1 : Nat.testBit 1 0 = true := by decide
    rw [h1, Bool.and_true] at hc
    exact hc
  apply Nat.eq_of_testBit_eq
  intro j
  cases j with
  | zero => simp [Flags.VALID, Nat.testBit_lor, h0]
  | succ m =>
    have h2 : Nat.testBit 1 (m + 1) = false := by
      simp [Nat.testBit_succ]
    simp [Flags.VALID, Nat.testBit_lor, h2]

theorem Flags.contains_lor_left (f : Nat) : Flags.contains (f ||| Flags.VALID) f = true := by
  have : (f ||| Flags.VALID) &&& f = f := by
    apply Nat.eq_of_testBit_eq
    intro j
    simp only [Nat.testBit_land, Nat.testBit_lor]
    cases hf : f.testBit j <;> simp [hf]
  simp [Flags.contains, this]

/-! ### Characterisation of `descend` and `find_entry` -/

theorem descend_stay (s : Machine) (loc : Nat × Nat) (sl : Nat)
    (h : (s.mem.read loc.1 loc.2).is_empty = false) :
    descend s loc sl = KResult.ok (((s.mem.read loc.1 loc.2).ppn, sl), s) := by
  simp [descend, h]

theorem descend_create (s : Machine) (loc : Nat × Nat) (sl t : Nat) (rest : List Nat)
    (h : (s.mem.read loc.1 loc.2).is_empty = true) (hp : s.alloc_pool = t :: rest) :
    descend s loc sl = KResult.ok ((t, sl),
      { mem := (s.mem.clear t).write loc.1 loc.2 (PageTableEntry.new t Flags.VALID),
        alloc_pool := rest,
        page_tables := s.page_tables ++ [t],
        root_ppn := s.root_ppn }) := by
  simp [descend, h, Machine.alloc, hp]

theorem descend_exhausted (s : Machine) (loc : Nat × Nat) (sl : Nat)
    (h : (s.mem.read loc.1 loc.2).is_empty = true) (hp : s.alloc_pool = []) :
    descend s loc sl = KResult.err s := by
  simp [descend, h, Machine.alloc, hp]

theorem find_entry_eq (s : Machine) (vpn : Nat) :
    Mapping.find_entry s vpn =
      match descend s (s.root_ppn, (vpn >>> 18) % 512) ((vpn >>> 9) % 512) with
      | KResult.ok (loc₁, s₁) =>
        match descend s₁ loc₁ (vpn % 512) with
        | KResult.ok (loc₂, s₂) => KResult.ok (loc₂, s₂)
        | KResult.err s₂ => KResult.err s₂
        | KResult.halt => KResult.halt
      | KResult.err s₁ => KResult.err s₁
      | KResult.halt => KResult.halt := by
  simp only [Mapping.find_entry, levels, List.headD, List.tail]
  cases h1 : descend s (s.root_ppn, (vpn >>> 18) % 512) ((vpn >>> 9) % 512) with
  | ok v =>
    obtain ⟨loc₁, s₁⟩ := v
    simp only [Mapping.walk_create, h1]
  | err s₁ => simp [Mapping.walk_create, h1]
  | halt => simp [Mapping.walk_create, h1]

/-! ### Level-index arithmetic for a single 512-page block -/

theorem vpn_shift18 (A i : Nat) (h : i < 512) : (512 * A + i) >>> 18 = A >>> 9 := by
  rw [Nat.shiftRight_eq_div_pow, Nat.shiftRight_eq_div_pow]
  norm_num
  omega

theorem vpn_shift9 (A i : Nat) (h : i < 512) : (512 * A + i) >>> 9 = A := by
  rw [Nat.shiftRight_eq_div_pow]
  norm_num
  omega

theorem vpn_mod512 (A i : Nat) (h : i < 512) : (512 * A + i) % 512 = i := by
  omega

/-! ### Walking and writing within an established chain root → t1 → t2 -/

theorem chain_reads_ext {s : Machine} {root t1 t2 A : Nat}
    {leaf leaf' : Nat → PageTableEntry} (hc : chain_reads s root t1 t2 A leaf)
    (hl : ∀ i, leaf i = leaf' i) : chain_reads s root t1 t2 A leaf' := by
  obtain ⟨hroot, h0, h1, h2⟩ := hc
  exact ⟨hroot, h0, h1, fun i => (h2 i).trans (hl i)⟩

theorem find_entry_chain (s : Machine) (root t1 t2 A i : Nat) (leaf : Nat → PageTableEntry)
    (hc : chain_reads s root t1 t2 A leaf) (hi : i < 512) :
    Mapping.find_entry s (512 * A + i) = KResult.ok ((t2, i), s) := by
  obtain ⟨hroot, h0, h1, _⟩ := hc
  have e0 : s.mem.read s.root_ppn ((A >>> 9) % 512) = PageTableEntry.new t1 Flags.VALID := by
    rw [hroot]; exact h0
  have hne0 : (s.mem.read s.root_ppn ((A >>> 9) % 512)).is_empty = false := by
    rw [e0]; exact PageTableEntry.new_is_empty _ _
  have d1 := descend_stay s (s.root_ppn, (A >>> 9) % 512) (A % 512) hne0
  have hne1 : (s.mem.read t1 (A % 512)).is_empty = false := by
    rw [h1]; exact PageTableEntry.new_is_empty _ _
  have d2 := descend_stay s (t1, A % 512) i hne1
  rw [find_entry_eq, vpn_shift18 A i hi, vpn_shift9 A i hi, vpn_mod512 A i hi]
  rw [d1]
  simp only [e0]
  show (match descend s (t1, A % 512) i with
      | KResult.ok (loc₂, s₂) => KResult.ok (loc₂, s₂)
      | KResult.err s₂ => KResult.err s₂
      | KResult.halt => KResult.halt) = KResult.ok ((t2, i), s)
  rw [d2]
  simp only [h1]
  rfl

theorem map_one_chain (s : Machine) (root t1 t2 A i p fl : Nat) (leaf : Nat → PageTableEntry)
    (hc : chain_reads s root t1 t2 A leaf) (hi : i < 512) (he : (leaf i).is_empty = true) :
    Mapping.map_one s (512 * A + i) p fl =
      KResult.ok { s with mem := s.mem.write t2 i (PageTableEntry.new p fl) } := by
  have hfe := find_entry_chain s root t1 t2 A i leaf hc hi
  have hr : s.mem.read t2 i = leaf i := hc.2.2.2 i
  simp [Mapping.map_one, hfe, hr, he]

theorem chain_reads_write_leaf (s : Machine) (root t1 t2 A i : Nat) (e : PageTableEntry)
    (leaf : Nat → PageTableEntry) (hd : distinct3 root t1 t2)
    (hc : chain_reads s root t1 t2 A leaf) :
    chain_reads { s with mem := s.mem.write t2 i e } root t1 t2 A
      (fun j => if j = i then e else leaf j) := by
  obtain ⟨hroot, h0, h1, h2⟩ := hc
  obtain ⟨d1, d2, d3⟩ := hd
  refine ⟨hroot, ?_, ?_, ?_⟩
  · rw [Mem.read_write, if_neg (by rintro ⟨h, -⟩; exact d2 h.symm)]
    exact h0
  · rw [Mem.read_write, if_neg (by rintro ⟨h, -⟩; exact d3 h.symm)]
    exact h1
  · intro j
    rw [Mem.read_write]
    by_cases hj : j = i
    · subst hj
      simp
    · rw [if_neg (by rintro ⟨-, h⟩; exact hj h.symm)]
      simp [hj, h2 j]

theorem lookup_chain (s : Machine) (root t1 t2 A i : Nat) (leaf : Nat → PageTableEntry)
    (hc : chain_reads s root t1 t2 A leaf) (hi : i < 512) :
    Mapping.lookup s (512 * A + i) = some (leaf i) := by
  obtain ⟨hroot, h0, h1, h2⟩ := hc
  simp only [Mapping.lookup, vpn_shift18 A i hi, vpn_shift9 A i hi, vpn_mod512 A i hi, hroot, h0]
  simp [PageTableEntry.new_is_empty, PageTableEntry.new, h1, h2 i]
  constructor <;> simp [PageTableEntry.is_empty, Flags.contains, Flags.VALID]

theorem descend_create2 (s : Machine) (p idx sl t : Nat) (rest : List Nat)
    (h : (s.mem.read p idx).is_empty = true) (hp : s.alloc_pool = t :: rest) :
    descend s (p, idx) sl = KResult.ok ((t, sl),
      { mem := (s.mem.clear t).write p idx (PageTableEntry.new t Flags.VALID),
        alloc_pool := rest,
        page_tables := s.page_tables ++ [t],
        root_ppn := s.root_ppn }) := by
  simp [descend, h, Machine.alloc, hp]

theorem map_one_create_chain (s : Machine) (root t1 t2 A i p fl : Nat) (rest : List Nat)
    (hd : distinct3 root t1 t2) (hroot : s.root_ppn = root)
    (hpool : s.alloc_pool = t1 :: t2 :: rest)
    (he : (s.mem.read root ((A >>> 9) % 512)).is_empty = true)
    (hi : i < 512) :
    ∃ s₃, Mapping.map_one s (512 * A + i) p fl = KResult.ok s₃ ∧
      chain_reads s₃ root t1 t2 A
        (fun j => if j = i then PageTableEntry.new p fl else PageTableEntry.empty) ∧
      s₃.alloc_pool = rest ∧ s₃.page_tables = s.page_tables ++ [t1, t2] ∧
      s₃.root_ppn = root := by
  obtain ⟨d1, d2, d3⟩ := hd
  have he' : (s.mem.read s.root_ppn ((A >>> 9) % 512)).is_empty = true := by
    rw [hroot]; exact he
  have hd1 := descend_create2 s s.root_ppn ((A >>> 9) % 512) (A % 512) t1 (t2 :: rest) he' hpool
  have r1 : (((s.mem.clear t1).write s.root_ppn ((A >>> 9) % 512)
      (PageTableEntry.new t1 Flags.VALID)).read t1 (A % 512)).is_empty = true := by
    rw [Mem.read_write, if_neg (by rintro ⟨h, -⟩; rw [hroot] at h; exact d1 h)]
    rw [Mem.read_clear, if_pos rfl]
    exact PageTableEntry.empty_is_empty
  have hd2 := descend_create2
    { mem := (s.mem.clear t1).write s.root_ppn ((A >>> 9) % 512) (PageTableEntry.new t1 Flags.VALID),
      alloc_pool := t2 :: rest,
      page_tables := s.page_tables ++ [t1],
      root_ppn := s.root_ppn }
    t1 (A % 512) i t2 rest r1 rfl
  have hfe : Mapping.find_entry s (512 * A + i) = KResult.ok ((t2, i),
      { mem := (((s.mem.clear t1).write s.root_ppn ((A >>> 9) % 512)
            (PageTableEntry.new t1 Flags.VALID)).clear t2).write t1 (A % 512)
            (PageTableEntry.new t2 Flags.VALID),
        alloc_pool := rest,
        page_tables := (s.page_tables ++ [t1]) ++ [t2],
        root_ppn := s.root_ppn }) := by
    rw [find_entry_eq, vpn_shift18 A i hi, vpn_shift9 A i hi, vpn_mod512 A i hi]
    rw [hd1]
    dsimp only
    rw [hd2]
  have r2 : (((((s.mem.clear t1).write s.root_ppn ((A >>> 9) % 512)
      (PageTableEntry.new t1 Flags.VALID)).clear t2).write t1 (A % 512)
      (PageTableEntry.new t2 Flags.VALID)).read t2 i).is_empty = true := by
    rw [Mem.read_write, if_neg (by rintro ⟨h, -⟩; exact d3 h)]
    rw [Mem.read_clear, if_pos rfl]
    exact PageTableEntry.empty_is_empty
  refine ⟨{ mem := ((((s.mem.clear t1).write s.root_ppn ((A >>> 9) % 512)
              (PageTableEntry.new t1 Flags.VALID)).clear t2).write t1 (A % 512)
              (PageTableEntry.new t2 Flags.VALID)).write t2 i (PageTableEntry.new p fl),
            alloc_pool := rest,
            page_tables := (s.page_tables ++ [t1]) ++ [t2],
            root_ppn := s.root_ppn }, ?_, ?_, rfl, by simp, hroot⟩
  · simp only [Mapping.map_one, hfe]
    rw [if_pos r2]
  · refine ⟨hroot, ?_, ?_, ?_⟩
    · rw [Mem.read_write, if_neg (by rintro ⟨h, -⟩; exact d2 h.symm)]
      rw [Mem.read_write, if_neg (by rintro ⟨h, -⟩; exact d1 h.symm)]
      rw [Mem.read_clear, if_neg (fun h => d2 h)]
      rw [Mem.read_write, if_pos ⟨hroot, rfl⟩]
    · rw [Mem.read_write, if_neg (by rintro ⟨h, -⟩; exact d3 h.symm)]
      rw [Mem.read_write, if_pos ⟨rfl, rfl⟩]
    · intro j
      rw [Mem.read_write]
      by_cases hj : j = i
      · subst hj
        rw [if_pos ⟨rfl, rfl⟩]
        simp
      · rw [if_neg (by rintro ⟨-, h⟩; exact hj h.symm)]
        rw [Mem.read_write, if_neg (by rintro ⟨h, -⟩; exact d3 h)]
        rw [Mem.read_clear, if_pos rfl]
        simp [hj]

/-! ### Runs of the `map` loops inside one block -/

theorem linear_loop_chain (root t1 t2 A fl : Nat) (hd : distinct3 root t1 t2) :
    ∀ (n i : Nat) (s : Machine) (leaf : Nat → PageTableEntry),
      chain_reads s root t1 t2 A leaf →
      (∀ m, m < n → (leaf (i + m)).is_empty = true) →
      i + n ≤ 512 →
      ∃ s', Mapping.map_linear_loop s fl (vpnRange (512 * A + i) n) = KResult.ok s' ∧
        chain_reads s' root t1 t2 A
          (fun j => if i ≤ j ∧ j < i + n then PageTableEntry.new (512 * A + j) fl
                    else leaf j) ∧
        s'.alloc_pool = s.alloc_pool ∧ s'.page_tables = s.page_tables := by
  intro n
  induction n with
  | zero =>
    intro i s leaf hc hemp hle
    refine ⟨s, rfl, ?_, rfl, rfl⟩
    exact chain_reads_ext hc (by intro j; rw [if_neg (by omega)])
  | succ n ih =>
    intro i s leaf hc hemp hle
    have hstep := map_one_chain s root t1 t2 A i (512 * A + i) fl leaf hc (by omega)
      (by have h := hemp 0 (by omega); simpa using h)
    have hc₂ := chain_reads_write_leaf s root t1 t2 A i
      (PageTableEntry.new (512 * A + i) fl) leaf hd hc
    obtain ⟨s', hloop, hc', hp, hpt⟩ := ih (i + 1)
      { s with mem := s.mem.write t2 i (PageTableEntry.new (512 * A + i) fl) }
      (fun j => if j = i then PageTableEntry.new (512 * A + i) fl else leaf j)
      hc₂
      (by intro m hm
          have hne : i + 1 + m ≠ i := by omega
          simp only [hne, if_false]
          have h := hemp (1 + m) (by omega)
          rw [show i + 1 + m = i + (1 + m) from by omega]
          exact h)
      (by omega)
    refine ⟨s', ?_, ?_, hp, hpt⟩
    · have hcons : vpnRange (512 * A + i) (n + 1)
          = (512 * A + i) :: vpnRange (512 * A + i + 1) n := rfl
      rw [hcons]
      simp only [Mapping.map_linear_loop, hstep]
      rw [show 512 * A + (i + 1) = 512 * A + i + 1 from by omega] at hloop
      exact hloop
    · refine chain_reads_ext hc' ?_
      intro j
      by_cases hji : j = i
      · subst hji
        rw [if_neg (by omega), if_pos rfl, if_pos (by omega)]
      · by_cases hr : i + 1 ≤ j ∧ j < i + 1 + n
        · rw [if_pos hr, if_pos (by omega)]
        · rw [if_neg hr, if_neg hji, if_neg (by omega)]

theorem framed_loop_zero (fl : Nat) : ∀ (lst : List Nat) (s : Machine) (acc : List (Nat × Nat)),
    Mapping.map_framed_loop s fl 0 acc lst = KResult.ok (s, acc) := by
  intro lst
  induction lst with
  | nil =>
    intro s acc
    rfl
  | cons v rest ih =>
    intro s acc
    simp only [Mapping.map_framed_loop]
    rw [if_neg (by omega)]
    exact ih s acc

theorem free_frames_fields (prs : List (Nat × Nat)) : ∀ (s : Machine),
    (free_frames s prs).mem = s.mem ∧ (free_frames s prs).page_tables = s.page_tables ∧
    (free_frames s prs).root_ppn = s.root_ppn ∧
    (free_frames s prs).alloc_pool = (prs.map Prod.snd).reverse ++ s.alloc_pool := by
  induction prs with
  | nil =>
    intro s
    simp [free_frames]
  | cons pr prs ih =>
    intro s
    obtain ⟨h1, h2, h3, h4⟩ := ih (s.free pr.2)
    have hf : free_frames s (pr :: prs) = free_frames (s.free pr.2) prs := rfl
    rw [hf, h1, h2, h3, h4]
    refine ⟨rfl, rfl, rfl, ?_⟩
    simp [Machine.free, List.append_assoc]

theorem framed_loop_chain (root t1 t2 A fl : Nat) (hd : distinct3 root t1 t2) :
    ∀ (fs : List Nat) (c i : Nat) (s : Machine) (leaf : Nat → PageTableEntry)
      (rest : List Nat) (acc : List (Nat × Nat)) (ys : List Nat),
      chain_reads s root t1 t2 A leaf →
      s.alloc_pool = fs ++ rest →
      fs.length ≤ c →
      (∀ m, m < fs.length → (leaf (i + m)).is_empty = true) →
      i + fs.length ≤ 512 →
      ∃ s', Mapping.map_framed_loop s fl c acc (vpnRange (512 * A + i) fs.length ++ ys) =
              Mapping.map_framed_loop s' fl (c - fs.length)
                (acc ++ (vpnRange (512 * A + i) fs.length).zip fs) ys ∧
        chain_reads s' root t1 t2 A
          (fun j => if i ≤ j ∧ j < i + fs.length
                    then PageTableEntry.new (fs.getD (j - i) 0) fl else leaf j) ∧
        s'.alloc_pool = rest ∧ s'.page_tables = s.page_tables := by
  intro fs
  induction fs with
  | nil =>
    intro c i s leaf rest acc ys hc hp hcle hemp hle
    refine ⟨s, ?_, ?_, by simpa using hp, rfl⟩
    · simp [vpnRange]
    · exact chain_reads_ext hc (by intro j; rw [if_neg (by simp)])
  | cons f fs ih =>
    intro c i s leaf rest acc ys hc hp hcle hemp hle
    simp only [List.length_cons] at hcle hemp hle
    have hc0 : 0 < c := by omega
    have halloc : s.alloc = some (f, { s with alloc_pool := fs ++ rest }) := by
      simp [Machine.alloc, hp]
    have hc₁ : chain_reads { s with alloc_pool := fs ++ rest } root t1 t2 A leaf := hc
    have hstep := map_one_chain { s with alloc_pool := fs ++ rest } root t1 t2 A i f fl leaf
      hc₁ (by omega) (by have h := hemp 0 (by omega); simpa using h)
    have hc₂ := chain_reads_write_leaf { s with alloc_pool := fs ++ rest } root t1 t2 A i
      (PageTableEntry.new f fl) leaf hd hc₁
    obtain ⟨s', hloop, hc', hp', hpt'⟩ := ih (c - 1) (i + 1)
      { s with
        mem := s.mem.write t2 i (PageTableEntry.new f fl),
        alloc_pool := fs ++ rest }
      (fun j => if j = i then PageTableEntry.new f fl else leaf j)
      rest (acc ++ [(512 * A + i, f)]) ys
      hc₂ rfl (by omega)
      (by intro m hm
          have hne : i + 1 + m ≠ i := by omega
          simp only [hne, if_false]
          have h := hemp (1 + m) (by omega)
          rw [show i + 1 + m = i + (1 + m) from by omega]
          exact h)
      (by omega)
    refine ⟨s', ?_, ?_, hp', by simpa using hpt'⟩
    · have hcons : vpnRange (512 * A + i) ((f :: fs).length) ++ ys
          = (512 * A + i) :: (vpnRange (512 * A + i + 1) fs.length ++ ys) := by
        simp [vpnRange]
      rw [hcons]
      simp only [Mapping.map_framed_loop]
      rw [if_pos hc0, halloc]
      simp only [hstep]
      rw [show 512 * A + (i + 1) = 512 * A + i + 1 from by omega] at hloop
      rw [hloop]
      have hzip : (vpnRange (512 * A + i) ((f :: fs).length)).zip (f :: fs)
          = (512 * A + i, f) :: (vpnRange (512 * A + i + 1) fs.length).zip fs := by
        simp [vpnRange]
      rw [hzip]
      have hlen : (f :: fs).length = fs.length + 1 := by simp
      rw [hlen]
      have hsub : c - (fs.length + 1) = c - 1 - fs.length := by omega
      rw [hsub]
      have hacc : acc ++ [(512 * A + i, f)] ++ (vpnRange (512 * A + i + 1) fs.length).zip fs
          = acc ++ ((512 * A + i, f) :: (vpnRange (512 * A + i + 1) fs.length).zip fs) := by
        simp
      rw [hacc]
    · refine chain_reads_ext hc' ?_
      intro j
      by_cases hji : j = i
      · subst hji
        rw [if_neg (by omega), if_pos rfl, if_pos (by simp)]
        simp
      · by_cases hr : i + 1 ≤ j ∧ j < i + 1 + fs.length
        · rw [if_pos hr, if_pos (by simp; omega)]
          have hgd : fs.getD (j - (i + 1)) 0 = (f :: fs).getD (j - i) 0 := by
            rw [show j - i = (j - (i + 1)) + 1 from by omega]
            simp
          rw [hgd]
        · rw [if_neg hr, if_neg hji, if_neg (by simp; omega)]

theorem framed_loop_exhaust (s : Machine) (fl c : Nat) (acc : List (Nat × Nat))
    (v : Nat) (ys : List Nat) (hc : 0 < c) (hp : s.alloc_pool = []) :
    Mapping.map_framed_loop s fl c acc (v :: ys) = KResult.err (free_frames s acc) := by
  simp only [Mapping.map_framed_loop]
  rw [if_pos hc]
  have ha : s.alloc = none := by simp [Machine.alloc, hp]
  rw [ha]

theorem vpnRange_length (v n : Nat) : (vpnRange v n).length = n := by
  induction n generalizing v with
  | zero => rfl
  | succ m ih => simp [vpnRange, ih]

theorem vpnRange_append (v a b : Nat) :
    vpnRange v (a + b) = vpnRange v a ++ vpnRange (v + a) b := by
  induction a generalizing v with
  | zero => simp [vpnRange]
  | succ m ih =>
    have h1 : vpnRange v (m + 1 + b) = v :: vpnRange (v + 1) (m + b) := by
      rw [show m + 1 + b = (m + b) + 1 from by omega]
      rfl
    rw [h1, ih (v + 1), show v + (m + 1) = v + 1 + m from by omega]
    rfl

theorem descend_ne_halt (s : Machine) (loc : Nat × Nat) (sl : Nat) :
    descend s loc sl ≠ KResult.halt := by
  cases hb : (s.mem.read loc.1 loc.2).is_empty with
  | false => simp [descend, hb]
  | true =>
    cases ha : s.alloc with
    | none => simp [descend, hb, ha]
    | some v =>
      obtain ⟨t, s₁⟩ := v
      simp [descend, hb, ha]

theorem find_entry_ne_halt (s : Machine) (vpn : Nat) :
    Mapping.find_entry s vpn ≠ KResult.halt := by
  rw [find_entry_eq]
  cases h1 : descend s (s.root_ppn, (vpn >>> 18) % 512) ((vpn >>> 9) % 512) with
  | halt => exact absurd h1 (descend_ne_halt _ _ _)
  | err s₁ => simp
  | ok v =>
    obtain ⟨loc₁, s₁⟩ := v
    cases h2 : descend s₁ loc₁ (vpn % 512) with
    | halt => exact absurd h2 (descend_ne_halt _ _ _)
    | err s₂ => simp [h2]
    | ok w =>
      obtain ⟨loc₂, s₂⟩ := w
      simp [h2]

theorem lookup_empty_root (s : Machine) (vpn : Nat)
    (h : (s.mem.read s.root_ppn ((vpn >>> 18) % 512)).is_empty = true) :
    Mapping.lookup s vpn = none := by
  simp [Mapping.lookup, h]

theorem descend_stay2 (s : Machine) (p idx sl : Nat)
    (h : (s.mem.read p idx).is_empty = false) :
    descend s (p, idx) sl = KResult.ok (((s.mem.read p idx).ppn, sl), s) := by
  simp [descend, h]

/-! ### Claim theorems -/

/-- C9: Seed-data rejection — for every segment (Linear or Framed), calling
`map` with a non-`None` `init_data` halts via `unimplemented!` before any
page is mapped; it never returns a recoverable error or a partial result. -/
theorem seed_data_rejected (s : Machine) (seg : Segment) (frame_limit : Nat) (d : Nat × Nat) :
    Mapping.map s seg frame_limit (some d) = KResult.halt := by
  cases h : seg.map_type <;> simp [Mapping.map, h]

/-- C1: No double mapping — a `map_one` call whose leaf entry is non-empty,
and a `swap_in` call whose leaf entry has the VALID flag set, halt via the
assertion and never silently overwrite the entry; a call that returns `ok`
found the entry empty (resp. not VALID) and leaves it populated with the
VALID flag set, so under `map_one`/`swap_in` calls a leaf entry passes from
empty to populated at most once. -/
theorem no_double_mapping (s s₁ : Machine) (vpn p fl : Nat) (loc : Nat × Nat)
    (hfe : Mapping.find_entry s vpn = KResult.ok (loc, s₁)) :
    ((s₁.mem.read loc.1 loc.2).is_empty = false →
        Mapping.map_one s vpn p fl = KResult.halt) ∧
    (Flags.contains (s₁.mem.read loc.1 loc.2).flags Flags.VALID = true →
        Mapping.swap_in s vpn p fl = KResult.halt) ∧
    (∀ s₂, Mapping.map_one s vpn p fl = KResult.ok s₂ →
        (s₁.mem.read loc.1 loc.2).is_empty = true ∧
        s₂.mem.read loc.1 loc.2 = PageTableEntry.new p fl ∧
        (s₂.mem.read loc.1 loc.2).is_empty = false ∧
        Flags.contains (s₂.mem.read loc.1 loc.2).flags Flags.VALID = true) ∧
    (∀ s₂, Mapping.swap_in s vpn p fl = KResult.ok s₂ →
        Flags.contains (s₁.mem.read loc.1 loc.2).flags Flags.VALID = false ∧
        s₂.mem.read loc.1 loc.2 = PageTableEntry.new p fl ∧
        Flags.contains (s₂.mem.read loc.1 loc.2).flags Flags.VALID = true) := by
  refine ⟨?_, ?_, ?_, ?_⟩
  · intro h
    simp [Mapping.map_one, hfe, h]
  · intro h
    simp [Mapping.swap_in, hfe, h]
  · intro s₂ h
    simp only [Mapping.map_one, hfe] at h
    by_cases he : (s₁.mem.read loc.1 loc.2).is_empty = true
    · rw [if_pos he] at h
      cases h
      refine ⟨he, ?_, ?_, ?_⟩
      · rw [Mem.read_write, if_pos ⟨rfl, rfl⟩]
      · rw [Mem.read_write, if_pos ⟨rfl, rfl⟩]
        exact PageTableEntry.new_is_empty p fl
      · rw [Mem.read_write, if_pos ⟨rfl, rfl⟩]
        simpa [PageTableEntry.new] using Flags.contains_lor_valid fl
    · rw [if_neg he] at h
      exact absurd h (by simp)
  · intro s₂ h
    simp only [Mapping.swap_in, hfe] at h
    by_cases hv : Flags.contains (s₁.mem.read loc.1 loc.2).flags Flags.VALID = true
    · rw [if_pos hv] at h
      exact absurd h (by simp)
    · rw [if_neg hv] at h
      cases h
      refine ⟨by rwa [Bool.not_eq_true] at hv, ?_, ?_⟩
      · rw [Mem.read_write, if_pos ⟨rfl, rfl⟩]
      · rw [Mem.read_write, if_pos ⟨rfl, rfl⟩]
        simpa [PageTableEntry.new] using Flags.contains_lor_valid fl

/-- Witness for C1 at a populated leaf entry: on a concrete machine whose
page table maps virtual page 0 to the valid entry (7, VALID|READABLE), both
`map_one` and `swap_in` halt instead of overwriting. -/
theorem no_double_mapping_witness :
    Mapping.map_one ⟨[(0, 0, ⟨1, 1⟩), (1, 0, ⟨2, 1⟩), (2, 0, ⟨7, 3⟩)], [], [0, 1, 2], 0⟩
        0 5 2 = KResult.halt ∧
    Mapping.swap_in ⟨[(0, 0, ⟨1, 1⟩), (1, 0, ⟨2, 1⟩), (2, 0, ⟨7, 3⟩)], [], [0, 1, 2], 0⟩
        0 5 2 = KResult.halt := by
  have h := no_double_mapping
    ⟨[(0, 0, ⟨1, 1⟩), (1, 0, ⟨2, 1⟩), (2, 0, ⟨7, 3⟩)], [], [0, 1, 2], 0⟩
    ⟨[(0, 0, ⟨1, 1⟩), (1, 0, ⟨2, 1⟩), (2, 0, ⟨7, 3⟩)], [], [0, 1, 2], 0⟩
    0 5 2 (2, 0) (by decide)
  exact ⟨h.1 (by decide), h.2.1 (by decide)⟩

/-- C7: `map_one` writes VALID implicitly — when the leaf entry is empty,
`map_one(vpn, ppn, flags)` succeeds and the written entry carries the given
physical page number and a flag set containing both the given flags and
VALID, even when VALID is not among the given flags. -/
theorem map_one_writes_valid (s s₁ : Machine) (vpn p fl : Nat) (loc : Nat × Nat)
    (hfe : Mapping.find_entry s vpn = KResult.ok (loc, s₁))
    (he : (s₁.mem.read loc.1 loc.2).is_empty = true) :
    ∃ s₂, Mapping.map_one s vpn p fl = KResult.ok s₂ ∧
      s₂.mem.read loc.1 loc.2 = PageTableEntry.new p fl ∧
      (s₂.mem.read loc.1 loc.2).ppn = p ∧
      Flags.contains (s₂.mem.read loc.1 loc.2).flags fl = true ∧
      Flags.contains (s₂.mem.read loc.1 loc.2).flags Flags.VALID = true := by
  refine ⟨{ s₁ with mem := s₁.mem.write loc.1 loc.2 (PageTableEntry.new p fl) }, ?_, ?_, ?_, ?_, ?_⟩
  · simp only [Mapping.map_one, hfe]
    rw [if_pos he]
  · rw [Mem.read_write, if_pos ⟨rfl, rfl⟩]
  · rw [Mem.read_write, if_pos ⟨rfl, rfl⟩]
    rfl
  · rw [Mem.read_write, if_pos ⟨rfl, rfl⟩]
    simpa [PageTableEntry.new] using Flags.contains_lor_left fl
  · rw [Mem.read_write, if_pos ⟨rfl, rfl⟩]
    simpa [PageTableEntry.new] using Flags.contains_lor_valid fl

/-- Witness for C7: mapping virtual page 0 to frame 7 with flags
READABLE|WRITABLE (6, no VALID bit) on a fresh machine writes an entry
whose flag set contains both 6 and VALID. -/
theorem map_one_writes_valid_witness :
    ∃ s₂, Mapping.map_one ⟨[], [1, 2], [0], 0⟩ 0 7 6 = KResult.ok s₂ ∧
      s₂.mem.read 2 0 = PageTableEntry.new 7 6 ∧
      (s₂.mem.read 2 0).ppn = 7 ∧
      Flags.contains (s₂.mem.read 2 0).flags 6 = true ∧
      Flags.contains (s₂.mem.read 2 0).flags Flags.VALID = true :=
  map_one_writes_valid ⟨[], [1, 2], [0], 0⟩
    ⟨[(1, 0, ⟨2, 1⟩), (0, 0, ⟨1, 1⟩)], [], [0, 1, 2], 0⟩
    0 7 6 (2, 0) (by decide) (by decide)

/-- C8: `swap_out` behaviour — if the leaf entry's VALID flag is clear
(in particular on a never-mapped virtual page number) `swap_out` halts via
the assertion; otherwise it overwrites the leaf entry with the empty
sentinel, clearing both the physical page number field and all flag bits,
and touches no other entry. -/
theorem swap_out_characterisation (s s₁ : Machine) (vpn : Nat) (loc : Nat × Nat)
    (hfe : Mapping.find_entry s vpn = KResult.ok (loc, s₁)) :
    (Flags.contains (s₁.mem.read loc.1 loc.2).flags Flags.VALID = false →
        Mapping.swap_out s vpn = KResult.halt) ∧
    (Flags.contains (s₁.mem.read loc.1 loc.2).flags Flags.VALID = true →
      ∃ s₂, Mapping.swap_out s vpn = KResult.ok s₂ ∧
        s₂.mem.read loc.1 loc.2 = PageTableEntry.empty ∧
        (s₂.mem.read loc.1 loc.2).ppn = 0 ∧
        (s₂.mem.read loc.1 loc.2).flags = 0 ∧
        ∀ q j, ¬(q = loc.1 ∧ j = loc.2) → s₂.mem.read q j = s₁.mem.read q j) := by
  constructor
  · intro h
    simp [Mapping.swap_out, hfe, h]
  · intro h
    refine ⟨{ s₁ with mem := s₁.mem.write loc.1 loc.2 PageTableEntry.empty }, ?_, ?_, ?_, ?_, ?_⟩
    · simp only [Mapping.swap_out, hfe]
      rw [if_pos h]
    · rw [Mem.read_write, if_pos ⟨rfl, rfl⟩]
    · rw [Mem.read_write, if_pos ⟨rfl, rfl⟩]
      rfl
    · rw [Mem.read_write, if_pos ⟨rfl, rfl⟩]
      rfl
    · intro q j hqj
      rw [Mem.read_write, if_neg (by rintro ⟨h1, h2⟩; exact hqj ⟨h1.symm, h2.symm⟩)]

/-- Witness for C8: on a fresh machine (virtual page 0 never mapped),
`swap_out` halts via the assertion rather than succeeding silently. -/
theorem swap_out_characterisation_witness :
    Mapping.swap_out ⟨[], [1, 2], [0], 0⟩ 0 = KResult.halt :=
  (swap_out_characterisation ⟨[], [1, 2], [0], 0⟩
    ⟨[(1, 0, ⟨2, 1⟩), (0, 0, ⟨1, 1⟩)], [], [0, 1, 2], 0⟩
    0 (2, 0) (by decide)).1 (by decide)

/-- C5: `find_entry` atomicity on allocation failure — when `find_entry`
returns the recoverable error, the allocator pool in the returned state is
exhausted (the failure is allocator exhaustion and nothing else: the walk
never halts), and every page-table entry in the returned state either is
unchanged from the initial state, or reads as the freshly zeroed empty
entry, or is a VALID link to a node tracked in `page_tables` — so the
failing step wrote no entry and no intermediate entry is left pointing to
an unallocated node. -/
theorem find_entry_err_atomic (s s₁ : Machine) (vpn : Nat)
    (herr : Mapping.find_entry s vpn = KResult.err s₁) :
    s₁.alloc_pool = [] ∧
    (∀ p i, s₁.mem.read p i = s.mem.read p i ∨
        s₁.mem.read p i = PageTableEntry.empty ∨
        ∃ t, t ∈ s₁.page_tables ∧ s₁.mem.read p i = PageTableEntry.new t Flags.VALID) ∧
    (∀ s' v, Mapping.find_entry s' v ≠ KResult.halt) := by
  by_cases hb0 : (s.mem.read s.root_ppn ((vpn >>> 18) % 512)).is_empty = true
  · cases hp : s.alloc_pool with
    | nil =>
      have heq : Mapping.find_entry s vpn = KResult.err s := by
        rw [find_entry_eq, descend_exhausted s _ _ hb0 hp]
      rw [heq] at herr
      cases herr
      exact ⟨hp, fun p i => Or.inl rfl, fun s' v => find_entry_ne_halt s' v⟩
    | cons t trest =>
      have hd1 := descend_create2 s s.root_ppn ((vpn >>> 18) % 512) ((vpn >>> 9) % 512)
        t trest hb0 hp
      by_cases hrt : s.root_ppn = t ∧ (vpn >>> 18) % 512 = (vpn >>> 9) % 512
      · -- the freshly written link is read back: second level is non-empty, walk succeeds
        have r1 : (((s.mem.clear t).write s.root_ppn ((vpn >>> 18) % 512)
            (PageTableEntry.new t Flags.VALID)).read t ((vpn >>> 9) % 512)).is_empty = false := by
          rw [Mem.read_write, if_pos hrt]
          exact PageTableEntry.new_is_empty t Flags.VALID
        have heq : Mapping.find_entry s vpn = KResult.ok
            (((((s.mem.clear t).write s.root_ppn ((vpn >>> 18) % 512)
                  (PageTableEntry.new t Flags.VALID)).read t ((vpn >>> 9) % 512)).ppn,
              vpn % 512),
              { mem := (s.mem.clear t).write s.root_ppn ((vpn >>> 18) % 512)
                  (PageTableEntry.new t Flags.VALID),
                alloc_pool := trest,
                page_tables := s.page_tables ++ [t],
                root_ppn := s.root_ppn }) := by
          rw [find_entry_eq, hd1]
          dsimp only
          rw [descend_stay2 _ t ((vpn >>> 9) % 512) (vpn % 512) r1]
        rw [heq] at herr
        cases herr
      · have r1 : ((s.mem.clear t).write s.root_ppn ((vpn >>> 18) % 512)
            (PageTableEntry.new t Flags.VALID)).read t ((vpn >>> 9) % 512)
            = PageTableEntry.empty := by
          rw [Mem.read_write, if_neg hrt, Mem.read_clear, if_pos rfl]
        cases htr : trest with
        | nil =>
          have heq : Mapping.find_entry s vpn = KResult.err
              { mem := (s.mem.clear t).write s.root_ppn ((vpn >>> 18) % 512)
                  (PageTableEntry.new t Flags.VALID),
                alloc_pool := trest,
                page_tables := s.page_tables ++ [t],
                root_ppn := s.root_ppn } := by
            rw [find_entry_eq, hd1]
            dsimp only
            rw [descend_exhausted _ (t, (vpn >>> 9) % 512) (vpn % 512)
              (by dsimp only; rw [r1]; rfl) htr]
          rw [heq] at herr
          cases herr
          refine ⟨htr, ?_, fun s' v => find_entry_ne_halt s' v⟩
          intro p i
          dsimp only
          rw [Mem.read_write]
          by_cases hpi : s.root_ppn = p ∧ (vpn >>> 18) % 512 = i
          · rw [if_pos hpi]
            exact Or.inr (Or.inr ⟨t, by simp, rfl⟩)
          · rw [if_neg hpi, Mem.read_clear]
            by_cases hpt : p = t
            · rw [if_pos hpt]
              exact Or.inr (Or.inl rfl)
            · rw [if_neg hpt]
              exact Or.inl rfl
        | cons t₂ tr₂ =>
          have hd2 := descend_create2
            { mem := (s.mem.clear t).write s.root_ppn ((vpn >>> 18) % 512)
                (PageTableEntry.new t Flags.VALID),
              alloc_pool := trest,
              page_tables := s.page_tables ++ [t],
              root_ppn := s.root_ppn }
            t ((vpn >>> 9) % 512) (vpn % 512) t₂ tr₂
            (by dsimp only; rw [r1]; rfl) htr
          rw [find_entry_eq] at herr
          rw [hd1] at herr
          dsimp only at herr
          rw [hd2] at herr
          simp at herr
  · have hb0' : (s.mem.read s.root_ppn ((vpn >>> 18) % 512)).is_empty = false := by
      rwa [Bool.not_eq_true] at hb0
    have hd1 := descend_stay2 s s.root_ppn ((vpn >>> 18) % 512) ((vpn >>> 9) % 512) hb0'
    by_cases hb1 : (s.mem.read (s.mem.read s.root_ppn ((vpn >>> 18) % 512)).ppn
        ((vpn >>> 9) % 512)).is_empty = true
    · cases hp : s.alloc_pool with
      | nil =>
        have heq : Mapping.find_entry s vpn = KResult.err s := by
          rw [find_entry_eq, hd1]
          dsimp only
          rw [descend_exhausted s (_, (vpn >>> 9) % 512) (vpn % 512) hb1 hp]
        rw [heq] at herr
        cases herr
        exact ⟨hp, fun p i => Or.inl rfl, fun s' v => find_entry_ne_halt s' v⟩
      | cons t trest =>
        have hd2 := descend_create2 s (s.mem.read s.root_ppn ((vpn >>> 18) % 512)).ppn
          ((vpn >>> 9) % 512) (vpn % 512) t trest hb1 hp
        rw [find_entry_eq] at herr
        rw [hd1] at herr
        dsimp only at herr
        rw [hd2] at herr
        simp at herr
    · have hb1' : (s.mem.read (s.mem.read s.root_ppn ((vpn >>> 18) % 512)).ppn
          ((vpn >>> 9) % 512)).is_empty = false := by
        rwa [Bool.not_eq_true] at hb1
      have hd2 := descend_stay2 s (s.mem.read s.root_ppn ((vpn >>> 18) % 512)).ppn
        ((vpn >>> 9) % 512) (vpn % 512) hb1'
      rw [find_entry_eq] at herr
      rw [hd1] at herr
      dsimp only at herr
      rw [hd2] at herr
      simp at herr

/-- Witness for C5: on a machine whose allocator pool is empty, `find_entry`
for a never-mapped page fails with the recoverable error, the pool at the
failure is exhausted and the page-table state is unchanged. -/
theorem find_entry_err_atomic_witness :
    (⟨[], [], [0], 0⟩ : Machine).alloc_pool = [] ∧
    (∀ p i, (⟨[], [], [0], 0⟩ : Machine).mem.read p i
        = (⟨[], [], [0], 0⟩ : Machine).mem.read p i ∨
      (⟨[], [], [0], 0⟩ : Machine).mem.read p i = PageTableEntry.empty ∨
      ∃ t, t ∈ (⟨[], [], [0], 0⟩ : Machine).page_tables ∧
        (⟨[], [], [0], 0⟩ : Machine).mem.read p i = PageTableEntry.new t Flags.VALID) ∧
    (∀ s' v, Mapping.find_entry s' v ≠ KResult.halt) :=
  find_entry_err_atomic ⟨[], [], [0], 0⟩ ⟨[], [], [0], 0⟩ 0 (by decide)

theorem descend_stay3 (s : Machine) (p idx sl : Nat) (e : PageTableEntry)
    (hr : s.mem.read p idx = e) (h : e.is_empty = false) :
    descend s (p, idx) sl = KResult.ok ((e.ppn, sl), s) := by
  simp [descend, hr, h]

theorem PageTableEntry.new_ppn (p f : Nat) : (PageTableEntry.new p f).ppn = p := rfl

/-- C6: Lazy node creation idempotence — if `find_entry` returns a leaf
location and a resulting state, then running `find_entry` again on that
state (no intervening writes) allocates nothing, changes nothing, and
returns the same leaf location: the walk passes through the same
intermediate nodes.  Requires only that the allocator never hands out the
root table's own frame. -/
theorem find_entry_idempotent (s s₁ : Machine) (vpn : Nat) (loc : Nat × Nat)
    (hroot : s.root_ppn ∉ s.alloc_pool)
    (hfe : Mapping.find_entry s vpn = KResult.ok (loc, s₁)) :
    Mapping.find_entry s₁ vpn = KResult.ok (loc, s₁) := by
  by_cases hb0 : (s.mem.read s.root_ppn ((vpn >>> 18) % 512)).is_empty = true
  · cases hp : s.alloc_pool with
    | nil =>
      rw [find_entry_eq, descend_exhausted s _ _ hb0 hp] at hfe
      simp at hfe
    | cons t1 trest =>
      have ht1 : s.root_ppn ≠ t1 := fun h => hroot (by rw [hp, h]; exact List.mem_cons_self _ _)
      have hd1 := descend_create2 s s.root_ppn ((vpn >>> 18) % 512) ((vpn >>> 9) % 512)
        t1 trest hb0 hp
      have r1 : ((s.mem.clear t1).write s.root_ppn ((vpn >>> 18) % 512)
          (PageTableEntry.new t1 Flags.VALID)).read t1 ((vpn >>> 9) % 512)
          = PageTableEntry.empty := by
        rw [Mem.read_write, if_neg (by rintro ⟨h, -⟩; exact ht1 h), Mem.read_clear, if_pos rfl]
      cases htr : trest with
      | nil =>
        rw [find_entry_eq] at hfe
        rw [hd1] at hfe
        dsimp only at hfe
        rw [descend_exhausted _ (t1, (vpn >>> 9) % 512) (vpn % 512)
          (by dsimp only; rw [r1]; rfl) htr] at hfe
        simp at hfe
      | cons t2 tr2 =>
        have ht2 : s.root_ppn ≠ t2 := fun h =>
          hroot (by rw [hp, htr, h]; exact List.mem_cons_of_mem _ (List.mem_cons_self _ _))
        have hd2 := descend_create2
          { mem := (s.mem.clear t1).write s.root_ppn ((vpn >>> 18) % 512)
              (PageTableEntry.new t1 Flags.VALID),
            alloc_pool := trest,
            page_tables := s.page_tables ++ [t1],
            root_ppn := s.root_ppn }
          t1 ((vpn >>> 9) % 512) (vpn % 512) t2 tr2 (by dsimp only; rw [r1]; rfl) htr
        rw [find_entry_eq] at hfe
        rw [hd1] at hfe
        dsimp only at hfe
        rw [hd2] at hfe
        dsimp only at hfe
        cases hfe
        have ra : ((((s.mem.clear t1).write s.root_ppn ((vpn >>> 18) % 512)
              (PageTableEntry.new t1 Flags.VALID)).clear t2).write t1 ((vpn >>> 9) % 512)
              (PageTableEntry.new t2 Flags.VALID)).read s.root_ppn ((vpn >>> 18) % 512)
            = PageTableEntry.new t1 Flags.VALID := by
          rw [Mem.read_write, if_neg (by rintro ⟨h, -⟩; exact ht1 h.symm)]
          rw [Mem.read_clear, if_neg (fun h => ht2 h)]
          rw [Mem.read_write, if_pos ⟨rfl, rfl⟩]
        have rb : ((((s.mem.clear t1).write s.root_ppn ((vpn >>> 18) % 512)
              (PageTableEntry.new t1 Flags.VALID)).clear t2).write t1 ((vpn >>> 9) % 512)
              (PageTableEntry.new t2 Flags.VALID)).read t1 ((vpn >>> 9) % 512)
            = PageTableEntry.new t2 Flags.VALID := by
          rw [Mem.read_write, if_pos ⟨rfl, rfl⟩]
        have hs1 := descend_stay3
          { mem := (((s.mem.clear t1).write s.root_ppn ((vpn >>> 18) % 512)
                (PageTableEntry.new t1 Flags.VALID)).clear t2).write t1 ((vpn >>> 9) % 512)
                (PageTableEntry.new t2 Flags.VALID),
            alloc_pool := tr2,
            page_tables := (s.page_tables ++ [t1]) ++ [t2],
            root_ppn := s.root_ppn }
          s.root_ppn ((vpn >>> 18) % 512) ((vpn >>> 9) % 512)
          (PageTableEntry.new t1 Flags.VALID) ra
          (PageTableEntry.new_is_empty t1 Flags.VALID)
        have hs2 := descend_stay3
          { mem := (((s.mem.clear t1).write s.root_ppn ((vpn >>> 18) % 512)
                (PageTableEntry.new t1 Flags.VALID)).clear t2).write t1 ((vpn >>> 9) % 512)
                (PageTableEntry.new t2 Flags.VALID),
            alloc_pool := tr2,
            page_tables := (s.page_tables ++ [t1]) ++ [t2],
            root_ppn := s.root_ppn }
          t1 ((vpn >>> 9) % 512) (vpn % 512)
          (PageTableEntry.new t2 Flags.VALID) rb
          (PageTableEntry.new_is_empty t2 Flags.VALID)
        rw [find_entry_eq]
        dsimp only
        rw [hs1]
        rw [PageTableEntry.new_ppn]
        dsimp only
        rw [hs2]
        rw [PageTableEntry.new_ppn]
  · have hb0' : (s.mem.read s.root_ppn ((vpn >>> 18) % 512)).is_empty = false := by
      rwa [Bool.not_eq_true] at hb0
    have hd1 := descend_stay2 s s.root_ppn ((vpn >>> 18) % 512) ((vpn >>> 9) % 512) hb0'
    by_cases hb1 : (s.mem.read (s.mem.read s.root_ppn ((vpn >>> 18) % 512)).ppn
        ((vpn >>> 9) % 512)).is_empty = true
    · cases hp : s.alloc_pool with
      | nil =>
        rw [find_entry_eq] at hfe
        rw [hd1] at hfe
        dsimp only at hfe
        rw [descend_exhausted s ((s.mem.read s.root_ppn ((vpn >>> 18) % 512)).ppn,
          (vpn >>> 9) % 512) (vpn % 512) hb1 hp] at hfe
        simp at hfe
      | cons t trest =>
        have ht : s.root_ppn ≠ t := fun h => hroot (by rw [hp, h]; exact List.mem_cons_self _ _)
        have hd2 := descend_create2 s (s.mem.read s.root_ppn ((vpn >>> 18) % 512)).ppn
          ((vpn >>> 9) % 512) (vpn % 512) t trest hb1 hp
        rw [find_entry_eq] at hfe
        rw [hd1] at hfe
        dsimp only at hfe
        rw [hd2] at hfe
        dsimp only at hfe
        cases hfe
        have hcond : ¬((s.mem.read s.root_ppn ((vpn >>> 18) % 512)).ppn = s.root_ppn
            ∧ (vpn >>> 9) % 512 = (vpn >>> 18) % 512) := by
          rintro ⟨h1, h2⟩
          rw [h1, h2, hb0'] at hb1
          exact absurd hb1 (by simp)
        have ra : ((s.mem.clear t).write (s.mem.read s.root_ppn ((vpn >>> 18) % 512)).ppn
            ((vpn >>> 9) % 512) (PageTableEntry.new t Flags.VALID)).read s.root_ppn
            ((vpn >>> 18) % 512) = s.mem.read s.root_ppn ((vpn >>> 18) % 512) := by
          rw [Mem.read_write, if_neg hcond, Mem.read_clear, if_neg (fun h => ht h)]
        have rb : ((s.mem.clear t).write (s.mem.read s.root_ppn ((vpn >>> 18) % 512)).ppn
            ((vpn >>> 9) % 512) (PageTableEntry.new t Flags.VALID)).read
            (s.mem.read s.root_ppn ((vpn >>> 18) % 512)).ppn ((vpn >>> 9) % 512)
            = PageTableEntry.new t Flags.VALID := by
          rw [Mem.read_write, if_pos ⟨rfl, rfl⟩]
        have hs1 := descend_stay3
          { mem := (s.mem.clear t).write (s.mem.read s.root_ppn ((vpn >>> 18) % 512)).ppn
              ((vpn >>> 9) % 512) (PageTableEntry.new t Flags.VALID),
            alloc_pool := trest,
            page_tables := s.page_tables ++ [t],
            root_ppn := s.root_ppn }
          s.root_ppn ((vpn >>> 18) % 512) ((vpn >>> 9) % 512)
          (s.mem.read s.root_ppn ((vpn >>> 18) % 512)) ra hb0'
        have hs2 := descend_stay3
          { mem := (s.mem.clear t).write (s.mem.read s.root_ppn ((vpn >>> 18) % 512)).ppn
              ((vpn >>> 9) % 512) (PageTableEntry.new t Flags.VALID),
            alloc_pool := trest,
            page_tables := s.page_tables ++ [t],
            root_ppn := s.root_ppn }
          (s.mem.read s.root_ppn ((vpn >>> 18) % 512)).ppn ((vpn >>> 9) % 512) (vpn % 512)
          (PageTableEntry.new t Flags.VALID) rb
          (PageTableEntry.new_is_empty t Flags.VALID)
        rw [find_entry_eq]
        dsimp only
        rw [hs1]
        dsimp only
        rw [hs2]
        rfl
    · have hb1' : (s.mem.read (s.mem.read s.root_ppn ((vpn >>> 18) % 512)).ppn
          ((vpn >>> 9) % 512)).is_empty = false := by
        rwa [Bool.not_eq_true] at hb1
      have hd2 := descend_stay2 s (s.mem.read s.root_ppn ((vpn >>> 18) % 512)).ppn
        ((vpn >>> 9) % 512) (vpn % 512) hb1'
      rw [find_entry_eq] at hfe
      rw [hd1] at hfe
      dsimp only at hfe
      rw [hd2] at hfe
      dsimp only at hfe
      cases hfe
      rw [find_entry_eq]
      rw [hd1]
      dsimp only
      rw [hd2]

/-- Witness for C6: a second `find_entry` for virtual page 0 on the state
produced by a first call returns the same leaf location and the identical
state, allocating no page-table node. -/
theorem find_entry_idempotent_witness :
    Mapping.find_entry ⟨[(1, 0, ⟨2, 1⟩), (0, 0, ⟨1, 1⟩)], [], [0, 1, 2], 0⟩ 0
      = KResult.ok ((2, 0), ⟨[(1, 0, ⟨2, 1⟩), (0, 0, ⟨1, 1⟩)], [], [0, 1, 2], 0⟩) :=
  find_entry_idempotent ⟨[], [1, 2], [0], 0⟩
    ⟨[(1, 0, ⟨2, 1⟩), (0, 0, ⟨1, 1⟩)], [], [0, 1, 2], 0⟩
    0 (2, 0) (by decide) (by decide)

/-- C4: Swap round-trip — for a virtual page number whose leaf entry is a
valid entry E with physical page number P and flags F (reached through a
materialised walk whose leaf slot does not alias the two intermediate
slots), `swap_out` followed by `swap_in(vpn, P, F)` succeeds and leaves
every observable page-table read, in particular the leaf entry itself,
identical to the initial state. -/
theorem swap_round_trip (s : Machine) (vpn P F : Nat) (e0 e1 E : PageTableEntry)
    (h0 : s.mem.read s.root_ppn ((vpn >>> 18) % 512) = e0)
    (h0e : e0.is_empty = false)
    (h1 : s.mem.read e0.ppn ((vpn >>> 9) % 512) = e1)
    (h1e : e1.is_empty = false)
    (hE : s.mem.read e1.ppn (vpn % 512) = E)
    (hV : Flags.contains E.flags Flags.VALID = true)
    (hP : E.ppn = P) (hF : E.flags = F)
    (hne0 : ¬(e1.ppn = s.root_ppn ∧ vpn % 512 = (vpn >>> 18) % 512))
    (hne1 : ¬(e1.ppn = e0.ppn ∧ vpn % 512 = (vpn >>> 9) % 512)) :
    ∃ s₂ s₃, Mapping.swap_out s vpn = KResult.ok s₂ ∧
      Mapping.swap_in s₂ vpn P F = KResult.ok s₃ ∧
      s₃.mem.read e1.ppn (vpn % 512) = E ∧
      (∀ q j, s₃.mem.read q j = s.mem.read q j) := by
  have hs1 := descend_stay3 s s.root_ppn ((vpn >>> 18) % 512) ((vpn >>> 9) % 512) e0 h0 h0e
  have hs2 := descend_stay3 s e0.ppn ((vpn >>> 9) % 512) (vpn % 512) e1 h1 h1e
  have hfe : Mapping.find_entry s vpn = KResult.ok ((e1.ppn, vpn % 512), s) := by
    rw [find_entry_eq]
    rw [hs1]
    dsimp only
    rw [hs2]
  have hPF : PageTableEntry.new P F = E := by
    rw [← hP, ← hF]
    show PageTableEntry.new E.ppn E.flags = E
    unfold PageTableEntry.new
    rw [Flags.lor_valid_of_contains E.flags hV]
  have hso : Mapping.swap_out s vpn = KResult.ok
      { s with mem := s.mem.write e1.ppn (vpn % 512) PageTableEntry.empty } := by
    simp only [Mapping.swap_out, hfe]
    rw [if_pos (by rw [hE]; exact hV)]
  have r0 : ({ s with mem := s.mem.write e1.ppn (vpn % 512) PageTableEntry.empty }
      : Machine).mem.read s.root_ppn ((vpn >>> 18) % 512) = e0 := by
    rw [Mem.read_write, if_neg hne0, h0]
  have r1 : ({ s with mem := s.mem.write e1.ppn (vpn % 512) PageTableEntry.empty }
      : Machine).mem.read e0.ppn ((vpn >>> 9) % 512) = e1 := by
    rw [Mem.read_write, if_neg hne1, h1]
  have hs1' := descend_stay3
    { s with mem := s.mem.write e1.ppn (vpn % 512) PageTableEntry.empty }
    s.root_ppn ((vpn >>> 18) % 512) ((vpn >>> 9) % 512) e0 r0 h0e
  have hs2' := descend_stay3
    { s with mem := s.mem.write e1.ppn (vpn % 512) PageTableEntry.empty }
    e0.ppn ((vpn >>> 9) % 512) (vpn % 512) e1 r1 h1e
  have hfe2 : Mapping.find_entry
      { s with mem := s.mem.write e1.ppn (vpn % 512) PageTableEntry.empty } vpn
      = KResult.ok ((e1.ppn, vpn % 512),
        { s with mem := s.mem.write e1.ppn (vpn % 512) PageTableEntry.empty }) := by
    rw [find_entry_eq]
    dsimp only
    rw [hs1']
    dsimp only
    rw [hs2']
  have hsi : Mapping.swap_in
      { s with mem := s.mem.write e1.ppn (vpn % 512) PageTableEntry.empty } vpn P F
      = KResult.ok
        { s with
            mem := (s.mem.write e1.ppn (vpn % 512) PageTableEntry.empty).write e1.ppn
                     (vpn % 512) (PageTableEntry.new P F) } := by
    simp only [Mapping.swap_in, hfe2]
    rw [if_neg (by
      rw [Mem.read_write, if_pos ⟨rfl, rfl⟩, Flags.empty_not_valid]
      simp)]
  refine ⟨_, _, hso, hsi, ?_, ?_⟩
  · dsimp only
    rw [Mem.read_write, if_pos ⟨rfl, rfl⟩, hPF]
  · intro q j
    dsimp only
    rw [Mem.read_write]
    by_cases hqj : e1.ppn = q ∧ vpn % 512 = j
    · rw [if_pos hqj]
      obtain ⟨hq, hj⟩ := hqj
      rw [hPF, ← hq, ← hj, hE]
    · rw [if_neg hqj, Mem.read_write, if_neg hqj]

/-- Witness for C4: on a machine mapping virtual page 0 to the valid entry
(7, VALID|READABLE), swapping out and back in with (P, F) = (7, 3) leaves
every page-table read identical to the initial state. -/
theorem swap_round_trip_witness :
    ∃ s₂ s₃, Mapping.swap_out
        ⟨[(0, 0, ⟨1, 1⟩), (1, 0, ⟨2, 1⟩), (2, 0, ⟨7, 3⟩)], [], [0, 1, 2], 0⟩ 0
        = KResult.ok s₂ ∧
      Mapping.swap_in s₂ 0 7 3 = KResult.ok s₃ ∧
      s₃.mem.read 2 0 = (⟨7, 3⟩ : PageTableEntry) ∧
      (∀ q j, s₃.mem.read q j
        = (⟨[(0, 0, ⟨1, 1⟩), (1, 0, ⟨2, 1⟩), (2, 0, ⟨7, 3⟩)], [], [0, 1, 2], 0⟩
            : Machine).mem.read q j) :=
  swap_round_trip
    ⟨[(0, 0, ⟨1, 1⟩), (1, 0, ⟨2, 1⟩), (2, 0, ⟨7, 3⟩)], [], [0, 1, 2], 0⟩
    0 7 3 ⟨1, 1⟩ ⟨2, 1⟩ ⟨7, 3⟩
    (by decide) (by decide) (by decide) (by decide) (by decide) (by decide)
    (by decide) (by decide) (by decide) (by decide)

theorem map_linear_eq (s : Machine) (v n fl L : Nat) :
    Mapping.map s ⟨v, n, MapType.Linear, fl⟩ L none =
      match Mapping.map_linear_loop s fl (vpnRange v n) with
      | KResult.ok s' => KResult.ok (s', [])
      | KResult.err s' => KResult.err s'
      | KResult.halt => KResult.halt := rfl

/-- C3: Linear mapping identity — mapping a Linear segment over the virtual
pages [V0, V0 + N) (one 512-page block, fresh mapping) with no init data
succeeds with an empty pair list, installs for every k < N a leaf
translation of virtual page V0 + k to the physical page number of the same
numeric value V0 + k with the segment's flags (plus VALID), and consumes no
frames from the budget: the result does not depend on `frame_limit` at all
and no (vpn, frame) pair is returned. -/
theorem linear_mapping_identity (mem0 : Mem) (root t1 t2 : Nat) (rest : List Nat)
    (A r N fl L : Nat) (s0 : Machine)
    (hd : distinct3 root t1 t2)
    (hrange : r + N ≤ 512)
    (hnew : Mapping.new mem0 (root :: t1 :: t2 :: rest) = some s0) :
    (∀ L', Mapping.map s0 ⟨512 * A + r, N, MapType.Linear, fl⟩ L none
        = Mapping.map s0 ⟨512 * A + r, N, MapType.Linear, fl⟩ L' none) ∧
    ∃ s', Mapping.map s0 ⟨512 * A + r, N, MapType.Linear, fl⟩ L none = KResult.ok (s', []) ∧
      ∀ k, k < N → Mapping.lookup s' (512 * A + r + k)
          = some (PageTableEntry.new (512 * A + r + k) fl) := by
  simp only [Mapping.new] at hnew
  cases hnew
  refine ⟨fun L' => rfl, ?_⟩
  cases N with
  | zero =>
    refine ⟨⟨mem0.clear root, t1 :: t2 :: rest, [root], root⟩, rfl, ?_⟩
    intro k hk
    exact absurd hk (by omega)
  | succ n =>
    have hroot0 : ((mem0.clear root).read root ((A >>> 9) % 512)).is_empty = true := by
      rw [Mem.read_clear, if_pos rfl]
      rfl
    obtain ⟨s₃, hstep, hc, hpool3, hpt3, hroot3⟩ :=
      map_one_create_chain ⟨mem0.clear root, t1 :: t2 :: rest, [root], root⟩
        root t1 t2 A r (512 * A + r) fl rest hd rfl rfl hroot0 (by omega)
    obtain ⟨s', hloop, hc', hp', hpt'⟩ := linear_loop_chain root t1 t2 A fl hd n (r + 1) s₃
      (fun j => if j = r then PageTableEntry.new (512 * A + r) fl else PageTableEntry.empty)
      hc
      (by intro m hm
          show (if r + 1 + m = r then PageTableEntry.new (512 * A + r) fl
                else PageTableEntry.empty).is_empty = true
          rw [if_neg (by omega)]
          rfl)
      (by omega)
    refine ⟨s', ?_, ?_⟩
    · have hlooprun : Mapping.map_linear_loop ⟨mem0.clear root, t1 :: t2 :: rest, [root], root⟩
          fl (vpnRange (512 * A + r) (n + 1)) = KResult.ok s' := by
        have hcons : vpnRange (512 * A + r) (n + 1)
            = (512 * A + r) :: vpnRange (512 * A + r + 1) n := rfl
        rw [hcons]
        simp only [Mapping.map_linear_loop, hstep]
        rw [show 512 * A + (r + 1) = 512 * A + r + 1 from by omega] at hloop
        exact hloop
      rw [map_linear_eq, hlooprun]
    · intro k hk
      rw [show 512 * A + r + k = 512 * A + (r + k) from by omega]
      rw [lookup_chain s' root t1 t2 A (r + k) _ hc' (by omega)]
      by_cases hk0 : k = 0
      · subst hk0
        rw [if_neg (by omega)]
        simp
      · rw [if_pos (by omega)]

/-- Witness for C3: a Linear segment of two pages starting at virtual page
512·3 + 5 on a fresh mapping with tables 10, 11, 12. -/
theorem linear_mapping_identity_witness :
    (∀ L', Mapping.map ⟨[], [11, 12, 13], [10], 10⟩ ⟨512 * 3 + 5, 2, MapType.Linear, 2⟩ 0 none
        = Mapping.map ⟨[], [11, 12, 13], [10], 10⟩ ⟨512 * 3 + 5, 2, MapType.Linear, 2⟩ L' none) ∧
    ∃ s', Mapping.map ⟨[], [11, 12, 13], [10], 10⟩ ⟨512 * 3 + 5, 2, MapType.Linear, 2⟩ 0 none
        = KResult.ok (s', []) ∧
      ∀ k, k < 2 → Mapping.lookup s' (512 * 3 + 5 + k)
          = some (PageTableEntry.new (512 * 3 + 5 + k) 2) :=
  linear_mapping_identity [] 10 11 12 [13] 3 5 2 2 0 ⟨[], [11, 12, 13], [10], 10⟩
    ⟨by decide, by decide, by decide⟩ (by omega) (by decide)

theorem map_framed_eq (s : Machine) (v n fl L : Nat) :
    Mapping.map s ⟨v, n, MapType.Framed, fl⟩ L none
      = Mapping.map_framed_loop s fl L [] (vpnRange v n) := rfl

/-- C2: Frame-budget ceiling — mapping a Framed segment of N pages (one
512-page block, fresh mapping, enough free frames) with
`frame_limit = L < N` and no init data succeeds without an error, returns
exactly L (vpn, frame) pairs whose virtual pages are the first L pages in
range-iteration order, installs for each of those pages a leaf translation
to its returned frame with the segment's flags, and leaves the leaf
entries of the remaining N − L pages empty. -/
theorem frame_budget_ceiling (mem0 : Mem) (root f0 t1 t2 : Nat) (fs rest : List Nat)
    (A r N L fl : Nat) (s0 : Machine)
    (hd : distinct3 root t1 t2)
    (hL : L < N) (hrange : r + N ≤ 512)
    (hfs : fs.length = L - 1)
    (hnew : Mapping.new mem0 (root :: f0 :: t1 :: t2 :: (fs ++ rest)) = some s0) :
    ∃ s' pairs, Mapping.map s0 ⟨512 * A + r, N, MapType.Framed, fl⟩ L none
        = KResult.ok (s', pairs) ∧
      pairs.length = L ∧
      pairs.map Prod.fst = vpnRange (512 * A + r) L ∧
      (∀ k, k < L → Mapping.lookup s' (512 * A + r + k)
          = some (PageTableEntry.new ((pairs.map Prod.snd).getD k 0) fl)) ∧
      (∀ k, L ≤ k → k < N → ∀ e, Mapping.lookup s' (512 * A + r + k) = some e →
          e.is_empty = true) := by
  simp only [Mapping.new] at hnew
  cases hnew
  cases L with
  | zero =>
    refine ⟨⟨mem0.clear root, f0 :: t1 :: t2 :: (fs ++ rest), [root], root⟩, [], ?_, rfl, rfl,
      ?_, ?_⟩
    · rw [map_framed_eq]
      exact framed_loop_zero fl (vpnRange (512 * A + r) N) _ []
    · intro k hk
      exact absurd hk (by omega)
    · intro k hk1 hk2 e he
      rw [lookup_empty_root _ _ (by
        show ((mem0.clear root).read root ((512 * A + r + k) >>> 18 % 512)).is_empty = true
        rw [Mem.read_clear, if_pos rfl]
        rfl)] at he
      exact absurd he (by simp)
  | succ l =>
    have hfsl : fs.length = l := by omega
    subst hfsl
    have hroot0 : ((mem0.clear root).read root ((A >>> 9) % 512)).is_empty = true := by
      rw [Mem.read_clear, if_pos rfl]
      rfl
    obtain ⟨s₃, hstep, hc, hpool3, hpt3, hroot3⟩ :=
      map_one_create_chain ⟨mem0.clear root, t1 :: t2 :: (fs ++ rest), [root], root⟩
        root t1 t2 A r f0 fl (fs ++ rest) hd rfl rfl hroot0 (by omega)
    obtain ⟨s', hloop, hc', hp', hpt'⟩ := framed_loop_chain root t1 t2 A fl hd fs fs.length
      (r + 1) s₃
      (fun j => if j = r then PageTableEntry.new f0 fl else PageTableEntry.empty)
      rest [(512 * A + r, f0)]
      (vpnRange (512 * A + r + 1 + fs.length) (N - 1 - fs.length))
      hc (by rw [hpool3]) (by omega)
      (by intro m hm
          show (if r + 1 + m = r then PageTableEntry.new f0 fl
                else PageTableEntry.empty).is_empty = true
          rw [if_neg (by omega)]
          rfl)
      (by omega)
    rw [show 512 * A + (r + 1) = 512 * A + r + 1 from by omega] at hloop
    have hrun : Mapping.map_framed_loop
        ⟨mem0.clear root, f0 :: t1 :: t2 :: (fs ++ rest), [root], root⟩ fl (fs.length + 1) []
        (vpnRange (512 * A + r) N)
        = KResult.ok (s', [(512 * A + r, f0)]
            ++ (vpnRange (512 * A + r + 1) fs.length).zip fs) := by
      have h1 : vpnRange (512 * A + r) N = (512 * A + r) :: vpnRange (512 * A + r + 1) (N - 1) := by
        rw [show N = (N - 1) + 1 from by omega]
        rfl
      have h2 : vpnRange (512 * A + r + 1) (N - 1)
          = vpnRange (512 * A + r + 1) fs.length
            ++ vpnRange (512 * A + r + 1 + fs.length) (N - 1 - fs.length) := by
        rw [show N - 1 = fs.length + (N - 1 - fs.length) from by omega]
        rw [vpnRange_append]
        rw [show fs.length + (N - 1 - fs.length) - fs.length = N - 1 - fs.length from by omega]
      rw [h1, h2]
      simp only [Mapping.map_framed_loop]
      rw [if_pos (by omega)]
      rw [show (⟨mem0.clear root, f0 :: t1 :: t2 :: (fs ++ rest), [root], root⟩ : Machine).alloc
          = some (f0, ⟨mem0.clear root, t1 :: t2 :: (fs ++ rest), [root], root⟩) from rfl]
      simp only [hstep]
      rw [show fs.length + 1 - 1 = fs.length from by omega]
      rw [show ([] : List (Nat × Nat)) ++ [(512 * A + r, f0)] = [(512 * A + r, f0)] from by simp]
      rw [hloop]
      rw [show fs.length - fs.length = 0 from by omega]
      exact framed_loop_zero fl _ s' _
    have hsnd : ([(512 * A + r, f0)]
        ++ (vpnRange (512 * A + r + 1) fs.length).zip fs).map Prod.snd = f0 :: fs := by
      simp only [List.map_append, List.map_cons, List.map_nil]
      rw [List.map_snd_zip _ _ (by rw [vpnRange_length])]
      rfl
    refine ⟨s', [(512 * A + r, f0)] ++ (vpnRange (512 * A + r + 1) fs.length).zip fs,
      ?_, ?_, ?_, ?_, ?_⟩
    · rw [map_framed_eq]
      exact hrun
    · simp [List.length_zip, vpnRange_length]
    · simp only [List.map_append, List.map_cons, List.map_nil]
      rw [List.map_fst_zip _ _ (by rw [vpnRange_length])]
      rw [show vpnRange (512 * A + r) (fs.length + 1)
          = (512 * A + r) :: vpnRange (512 * A + r + 1) fs.length from rfl]
      rfl
    · intro k hk
      rw [hsnd]
      rw [show 512 * A + r + k = 512 * A + (r + k) from by omega]
      rw [lookup_chain s' root t1 t2 A (r + k) _ hc' (by omega)]
      by_cases hk0 : k = 0
      · subst hk0
        rw [if_neg (by omega)]
        simp
      · rw [if_pos (by omega)]
        rw [show r + k - (r + 1) = k - 1 from by omega]
        rw [show k = (k - 1) + 1 from by omega, List.getD_cons_succ]
        rw [show k - 1 + 1 - 1 = k - 1 from by omega]
    · intro k hk1 hk2 e he
      rw [show 512 * A + r + k = 512 * A + (r + k) from by omega] at he
      rw [lookup_chain s' root t1 t2 A (r + k) _ hc' (by omega)] at he
      rw [if_neg (by omega), if_neg (by omega)] at he
      have he' : PageTableEntry.empty = e := Option.some.inj he
      rw [← he']
      rfl

/-- Witness for C2: a Framed segment of three pages starting at virtual
page 0x1000 with frame limit 2 on a fresh mapping — exactly the pages
0x1000 and 0x1001 get frames, 0x1002 stays unmapped. -/
theorem frame_budget_ceiling_witness :
    ∃ s' pairs, Mapping.map ⟨[], [20, 21, 22, 23, 24], [10], 10⟩
        ⟨512 * 8 + 0, 3, MapType.Framed, 6⟩ 2 none = KResult.ok (s', pairs) ∧
      pairs.length = 2 ∧
      pairs.map Prod.fst = vpnRange (512 * 8 + 0) 2 ∧
      (∀ k, k < 2 → Mapping.lookup s' (512 * 8 + 0 + k)
          = some (PageTableEntry.new ((pairs.map Prod.snd).getD k 0) 6)) ∧
      (∀ k, 2 ≤ k → k < 3 → ∀ e, Mapping.lookup s' (512 * 8 + 0 + k) = some e →
          e.is_empty = true) :=
  frame_budget_ceiling [] 10 20 21 22 [23] [24] 8 0 3 2 6
    ⟨[], [20, 21, 22, 23, 24], [10], 10⟩
    ⟨by decide, by decide, by decide⟩ (by omega) (by omega) (by decide) (by decide)

theorem getD_mem_of_lt {l : List Nat} {k : Nat} (h : k < l.length) (d : Nat) :
    l.getD k d ∈ l := by
  induction l generalizing k with
  | nil => simp at h
  | cons a l ih =>
    cases k with
    | zero => simp
    | succ m =>
      simp only [List.getD_cons_succ]
      exact List.mem_cons_of_mem _ (ih (by simpa using h))

/-- C10: Dangling leaf entries on mid-range map failure — when a Framed
`map` call runs the allocator dry after having mapped k > 0 pages, it
returns the recoverable error (so the accumulated (vpn, frame) pairs are
dropped rather than returned), yet in the error state the k leaf entries
written earlier remain populated as VALID translations to those frames,
while the very same frames have been released back to the allocator pool by
the dropped trackers. -/
theorem framed_map_err_dangling (mem0 : Mem) (root f0 t1 t2 : Nat) (fs : List Nat)
    (A r N L fl : Nat) (s0 : Machine)
    (hd : distinct3 root t1 t2)
    (hrange : r + N ≤ 512)
    (hkL : fs.length + 1 < L) (hkN : fs.length + 1 < N)
    (hnew : Mapping.new mem0 (root :: f0 :: t1 :: t2 :: fs) = some s0) :
    ∃ s₁, Mapping.map s0 ⟨512 * A + r, N, MapType.Framed, fl⟩ L none = KResult.err s₁ ∧
      ∀ k, k < fs.length + 1 →
        Mapping.lookup s₁ (512 * A + r + k)
            = some (PageTableEntry.new ((f0 :: fs).getD k 0) fl) ∧
        Flags.contains (PageTableEntry.new ((f0 :: fs).getD k 0) fl).flags Flags.VALID = true ∧
        (f0 :: fs).getD k 0 ∈ s₁.alloc_pool := by
  simp only [Mapping.new] at hnew
  cases hnew
  have hroot0 : ((mem0.clear root).read root ((A >>> 9) % 512)).is_empty = true := by
    rw [Mem.read_clear, if_pos rfl]
    rfl
  obtain ⟨s₃, hstep, hc, hpool3, hpt3, hroot3⟩ :=
    map_one_create_chain ⟨mem0.clear root, t1 :: t2 :: fs, [root], root⟩
      root t1 t2 A r f0 fl fs hd rfl rfl hroot0 (by omega)
  obtain ⟨s', hloop, hc', hp', hpt'⟩ := framed_loop_chain root t1 t2 A fl hd fs (L - 1)
    (r + 1) s₃
    (fun j => if j = r then PageTableEntry.new f0 fl else PageTableEntry.empty)
    [] [(512 * A + r, f0)]
    (vpnRange (512 * A + r + 1 + fs.length) (N - 1 - fs.length))
    hc (by rw [hpool3]; simp) (by omega)
    (by intro m hm
        show (if r + 1 + m = r then PageTableEntry.new f0 fl
              else PageTableEntry.empty).is_empty = true
        rw [if_neg (by omega)]
        rfl)
    (by omega)
  rw [show 512 * A + (r + 1) = 512 * A + r + 1 from by omega] at hloop
  obtain ⟨m, hm⟩ : ∃ m, N - 1 - fs.length = m + 1 := ⟨N - 2 - fs.length, by omega⟩
  have hys : vpnRange (512 * A + r + 1 + fs.length) (N - 1 - fs.length)
      = (512 * A + r + 1 + fs.length) :: vpnRange (512 * A + r + 1 + fs.length + 1) m := by
    rw [hm]
    rfl
  have hrun : Mapping.map_framed_loop
      ⟨mem0.clear root, f0 :: t1 :: t2 :: fs, [root], root⟩ fl L []
      (vpnRange (512 * A + r) N)
      = KResult.err (free_frames s'
          ([(512 * A + r, f0)] ++ (vpnRange (512 * A + r + 1) fs.length).zip fs)) := by
    have h1 : vpnRange (512 * A + r) N = (512 * A + r) :: vpnRange (512 * A + r + 1) (N - 1) := by
      rw [show N = (N - 1) + 1 from by omega]
      rfl
    have h2 : vpnRange (512 * A + r + 1) (N - 1)
        = vpnRange (512 * A + r + 1) fs.length
          ++ vpnRange (512 * A + r + 1 + fs.length) (N - 1 - fs.length) := by
      rw [show N - 1 = fs.length + (N - 1 - fs.length) from by omega]
      rw [vpnRange_append]
      rw [show fs.length + (N - 1 - fs.length) - fs.length = N - 1 - fs.length from by omega]
    rw [h1, h2]
    simp only [Mapping.map_framed_loop]
    rw [if_pos (by omega)]
    rw [show (⟨mem0.clear root, f0 :: t1 :: t2 :: fs, [root], root⟩ : Machine).alloc
        = some (f0, ⟨mem0.clear root, t1 :: t2 :: fs, [root], root⟩) from rfl]
    simp only [hstep]
    rw [show ([] : List (Nat × Nat)) ++ [(512 * A + r, f0)] = [(512 * A + r, f0)] from by simp]
    rw [hloop]
    rw [hys]
    exact framed_loop_exhaust s' fl (L - 1 - fs.length) _ _ _ (by omega) hp'
  obtain ⟨hmfree, hptfree, hrtfree, hplfree⟩ := free_frames_fields
    ([(512 * A + r, f0)] ++ (vpnRange (512 * A + r + 1) fs.length).zip fs) s'
  have hsnd : ([(512 * A + r, f0)]
      ++ (vpnRange (512 * A + r + 1) fs.length).zip fs).map Prod.snd = f0 :: fs := by
    simp only [List.map_append, List.map_cons, List.map_nil]
    rw [List.map_snd_zip _ _ (by rw [vpnRange_length])]
    rfl
  have hcfree : chain_reads (free_frames s'
      ([(512 * A + r, f0)] ++ (vpnRange (512 * A + r + 1) fs.length).zip fs)) root t1 t2 A
      (fun j => if r + 1 ≤ j ∧ j < r + 1 + fs.length
                then PageTableEntry.new (fs.getD (j - (r + 1)) 0) fl
                else if j = r then PageTableEntry.new f0 fl else PageTableEntry.empty) := by
    obtain ⟨c1, c2, c3, c4⟩ := hc'
    refine ⟨?_, ?_, ?_, ?_⟩
    · rw [hrtfree]
      exact c1
    · rw [hmfree]
      exact c2
    · rw [hmfree]
      exact c3
    · intro i
      rw [hmfree]
      exact c4 i
  refine ⟨free_frames s' ([(512 * A + r, f0)]
      ++ (vpnRange (512 * A + r + 1) fs.length).zip fs), ?_, ?_⟩
  · rw [map_framed_eq]
    exact hrun
  · intro k hk
    refine ⟨?_, by simpa [PageTableEntry.new] using
      Flags.contains_lor_valid fl, ?_⟩
    · rw [show 512 * A + r + k = 512 * A + (r + k) from by omega]
      rw [lookup_chain _ root t1 t2 A (r + k) _ hcfree (by omega)]
      by_cases hk0 : k = 0
      · subst hk0
        rw [if_neg (by omega)]
        simp
      · rw [if_pos (by omega)]
        rw [show r + k - (r + 1) = k - 1 from by omega]
        rw [show k = (k - 1) + 1 from by omega, List.getD_cons_succ]
        rw [show k - 1 + 1 - 1 = k - 1 from by omega]
    · rw [hplfree, hsnd, hp']
      rw [List.append_nil, List.mem_reverse]
      exact getD_mem_of_lt (by simpa using hk) 0

/-- Witness for C10: a Framed segment of four pages with frame limit 4 on a
mapping whose allocator holds only two data frames (20 and 23) plus the
table frames — the call fails with the recoverable error, both mapped pages
keep VALID entries to frames 20 and 23, and both frames are back in the
allocator pool. -/
theorem framed_map_err_dangling_witness :
    ∃ s₁, Mapping.map ⟨[], [20, 21, 22, 23], [10], 10⟩
        ⟨512 * 8 + 0, 4, MapType.Framed, 6⟩ 4 none = KResult.err s₁ ∧
      ∀ k, k < 2 →
        Mapping.lookup s₁ (512 * 8 + 0 + k)
            = some (PageTableEntry.new (([20, 23] : List Nat).getD k 0) 6) ∧
        Flags.contains (PageTableEntry.new (([20, 23] : List Nat).getD k 0) 6).flags
            Flags.VALID = true ∧
        ([20, 23] : List Nat).getD k 0 ∈ s₁.alloc_pool :=
  framed_map_err_dangling [] 10 20 21 22 [23] 8 0 4 4 6
    ⟨[], [20, 21, 22, 23], [10], 10⟩
    ⟨by decide, by decide, by decide⟩ (by omega) (by decide) (by decide) (by decide)
